import Mathlib

/-!
Shallow embedding of `sherpa/bin/lstm_transducer_stateless/stream.py`.

The recurrent LSTM states handled by `stack_states` / `unstack_states` are
3-D torch tensors whose batch axis is dimension 1.  We embed such a tensor
as a nested list `List (List (List ℚ))` (dimension 0 outermost); a genuine
torch tensor is always rectangular, which the predicate `IsTensor3`
expresses.  `torch.Tensor.unbind`, `torch.Tensor.unsqueeze` and `torch.cat`
along dimension 1 become list operations; `torch.cat` rejects operands whose
non-concatenated dimensions disagree, which the embedding renders as an
`Option` result (`none` = the shape error raised by torch).
-/

namespace Sherpa

abbrev Tensor2 : Type := List (List ℚ)

abbrev Tensor3 : Type := List (List (List ℚ))

/-- Every dim-0 slice of `t` is a `d1 × d2` matrix. -/
def Rect (d1 d2 : Nat) (t : Tensor3) : Prop :=
  ∀ m ∈ t, m.length = d1 ∧ ∀ r ∈ m, r.length = d2

instance (d1 d2 : Nat) (t : Tensor3) : Decidable (Rect d1 d2 t) := by
  unfold Rect; infer_instance

/-- `t` is a rectangular tensor of shape `d0 × d1 × d2`. -/
def IsTensor3 (d0 d1 d2 : Nat) (t : Tensor3) : Prop :=
  t.length = d0 ∧ Rect d1 d2 t

instance (d0 d1 d2 : Nat) (t : Tensor3) : Decidable (IsTensor3 d0 d1 d2 t) := by
  unfold IsTensor3; infer_instance

/-- Size of dimension 1 (the batch axis), read off the first dim-0 slice. -/
def dim1 (t : Tensor3) : Nat := (t.headD []).length

/-- Size of dimension 2, read off the first row of the first dim-0 slice. -/
def dim2 (t : Tensor3) : Nat := ((t.headD []).headD []).length

/-- Slice `i` of `t.unbind(dim=1)`: drop the batch axis at position `i`. -/
def unbindAt (t : Tensor3) (i : Nat) : Tensor2 :=
  t.map (fun m => m.getD i [])

/-- `t.unbind(dim=1)`: the list of dim-1 slices, in batch order. -/
def unbind1 (t : Tensor3) : List Tensor2 :=
  (List.range (dim1 t)).map (unbindAt t)

/-- `t.unsqueeze(1)`: reinsert a batch axis of size 1 at dimension 1. -/
def unsqueeze1 (t : Tensor2) : Tensor3 :=
  t.map (fun r => [r])

/-- `torch.cat([a, b], dim=1)`: torch raises unless the non-concatenated
dimensions (0 and 2) agree, otherwise it concatenates along dimension 1. -/
def cat1 (a b : Tensor3) : Option Tensor3 :=
  if a.length = b.length ∧ dim2 a = dim2 b then
    some (List.zipWith (fun x y => x ++ y) a b)
  else
    none

/-- `torch.cat(ts, dim=1)` for a whole list; torch rejects an empty list. -/
def cat1List : List Tensor3 → Option Tensor3
  | [] => none
  | [t] => some t
  | t :: ts => (cat1List ts).bind (fun r => cat1 t r)

/-- `unstack_states` from `stream.py`: unbind the hidden and cell tensors
along the batch axis, pair the slices (Python `zip`, which truncates to the
shorter list), and restore a batch axis of size 1 on each. -/
def unstack_states (states : Tensor3 × Tensor3) : List (Tensor3 × Tensor3) :=
  ((unbind1 states.1).zip (unbind1 states.2)).map
    (fun p => (unsqueeze1 p.1, unsqueeze1 p.2))

/-- `stack_states` from `stream.py`: concatenate the per-stream hidden and
cell tensors along the batch axis. -/
def stack_states (states_list : List (Tensor3 × Tensor3)) :
    Option (Tensor3 × Tensor3) :=
  match cat1List (states_list.map Prod.fst),
        cat1List (states_list.map Prod.snd) with
  | some hidden_states, some cell_states => some (hidden_states, cell_states)
  | _, _ => none

/-- A feature frame as stored in `Stream.features`: a 2-D float tensor of
shape `(1, feature_dim)`.  Feature values are embedded as reals. -/
abbrev Frame : Type := List (List ℝ)

/-- Errors surfaced by the embedding: `configError` is the sampling-rate
mismatch raised inside the extractor. -/
inductive SherpaError : Type where
  | configError : SherpaError
  | shapeError : SherpaError
deriving DecidableEq

/-- Modelled from the spec: the external kaldifeat streaming extractor is out
of scope and specified only through its interface (§6): a configured sample
rate, frame shift and feature dimension, `num_frames_ready` (monotonically
non-decreasing), and `get_frame i` whose value never changes once frame `i`
is ready.  `ready` lists the frames computed so far, so
`num_frames_ready = ready.length` and `get_frame i = ready[i]`. -/
structure OnlineFeature : Type where
  samp_freq : ℚ
  frame_shift_ms : ℚ
  num_bins : Nat
  ready : List Frame

/-- `extractor.num_frames_ready`. -/
def OnlineFeature.num_frames_ready (e : OnlineFeature) : Nat :=
  e.ready.length

/-- `extractor.get_frame(i)`. -/
def OnlineFeature.get_frame (e : OnlineFeature) (i : Nat) : Frame :=
  e.ready.getD i []

/-- Modelled from the spec: `extractor.accept_waveform` (kaldifeat, out of
scope) throws when the declared sampling rate differs from the configured
one, before consuming any samples; otherwise the black-box signal processing
makes zero or more new frames ready.  The frames the DSP produces from the
chunk are passed in as the oracle argument `new_frames`. -/
def OnlineFeature.accept_waveform (e : OnlineFeature) (sampling_rate : ℚ)
    (new_frames : List Frame) : Except SherpaError OnlineFeature :=
  if sampling_rate = e.samp_freq then
    .ok { e with ready := e.ready ++ new_frames }
  else
    .error .configError

/-- Modelled from the spec: `extractor.input_finished` (kaldifeat, out of
scope) flushes the buffered partial frame, making zero or more further
frames ready; the flushed frames are the oracle argument. -/
def OnlineFeature.finish_input (e : OnlineFeature) (flushed : List Frame) :
    OnlineFeature :=
  { e with ready := e.ready ++ flushed }

/-- `_create_streaming_feature_extractor`: an fbank extractor with fixed
options: `samp_freq = 16000`, `num_bins = 80`; `frame_shift_ms` keeps the
kaldifeat default of 10, and no frames are ready yet. -/
def create_streaming_feature_extractor : OnlineFeature :=
  { samp_freq := 16000
    frame_shift_ms := 10
    num_bins := 80
    ready := [] }

/-- `self.log_eps = math.log(1e-10)`. -/
noncomputable def log_eps_value : ℝ := Real.log (1 / 10 ^ 10)

/-- The `Stream` object of `stream.py`, with the fields set in
`Stream.__init__`. -/
structure Stream : Type where
  feature_extractor : OnlineFeature
  features : List Frame
  num_fetched_frames : Nat
  num_trailing_blank_frames : Nat
  states : List (List Tensor3)
  processed_frames : Nat
  context_size : Nat
  subsampling_factor : Nat
  log_eps : ℝ
  segment : Nat
  frame_offset : Nat
  segment_frame_offset : Nat

/-- `Stream.__init__(context_size, subsampling_factor, initial_states)`. -/
noncomputable def Stream.init (context_size : Nat) (subsampling_factor : Nat)
    (initial_states : List (List Tensor3)) : Stream :=
  { feature_extractor := create_streaming_feature_extractor
    features := []
    num_fetched_frames := 0
    num_trailing_blank_frames := 0
    states := initial_states
    processed_frames := 0
    context_size := context_size
    subsampling_factor := subsampling_factor
    log_eps := log_eps_value
    segment := 0
    frame_offset := 0
    segment_frame_offset := 0 }

/-- One iteration of the `while` body of `Stream._fetch_frames`: append
`get_frame(num_fetched_frames)` and increment the watermark.  `k` counts the
remaining iterations, which on entry is
`num_frames_ready - num_fetched_frames`. -/
def fetchGo : Stream → Nat → Stream
  | s, 0 => s
  | s, k + 1 =>
      fetchGo
        { s with
          features :=
            s.features ++ [s.feature_extractor.get_frame s.num_fetched_frames]
          num_fetched_frames := s.num_fetched_frames + 1 }
        k

/-- `Stream._fetch_frames`: pull every frame the extractor has ready beyond
the current watermark, in index order. -/
def Stream.fetch_frames (s : Stream) : Stream :=
  fetchGo s (s.feature_extractor.num_frames_ready - s.num_fetched_frames)

/-- `Stream.accept_waveform(sampling_rate, waveform)`: forward the chunk to
the extractor (which throws on a sampling-rate mismatch), then fetch the
newly ready frames.  `new_frames` is the DSP oracle for this chunk. -/
def Stream.accept_waveform (s : Stream) (sampling_rate : ℚ)
    (new_frames : List Frame) : Except SherpaError Stream :=
  (s.feature_extractor.accept_waveform sampling_rate new_frames).map
    (fun e => Stream.fetch_frames { s with feature_extractor := e })

/-- `Stream.input_finished()`: flush the extractor, then fetch. -/
def Stream.input_finished (s : Stream) (flushed : List Frame) : Stream :=
  Stream.fetch_frames
    { s with feature_extractor := s.feature_extractor.finish_input flushed }

/-- Python `[x] * n`: `n` copies for `n ≥ 0`, the empty list otherwise. -/
def pyRepeat (x : α) (n : Int) : List α :=
  List.replicate n.toNat x

/-- `Stream.add_tail_paddings(n)`: extend `features` by `n` copies of a
`(1, num_bins)` frame filled with `self.log_eps`. -/
def Stream.add_tail_paddings (s : Stream) (n : Int) : Stream :=
  let tail_padding : Frame :=
    [List.replicate s.feature_extractor.num_bins s.log_eps]
  { s with features := s.features ++ pyRepeat tail_padding n }

/-- `Stream.endpoint_detected(config)`.  `sherpa.endpoint_detected` lives in
the external sherpa core; per the spec it is treated as an injected predicate
`D` over the config, `num_frames_decoded`, `trailing_silence_frames` and
`frame_shift_in_seconds`.  Returns the decision together with the stream
after the call. -/
def Stream.endpoint_detected {Config : Type}
    (D : Config → Nat → Nat → ℚ → Bool) (s : Stream) (config : Config) :
    Bool × Stream :=
  if D config s.processed_frames
      (s.num_trailing_blank_frames * s.subsampling_factor)
      (s.feature_extractor.frame_shift_ms / 1000) then
    (true,
      { s with
        num_trailing_blank_frames := 0
        processed_frames := 0
        segment := s.segment + 1
        segment_frame_offset := 0 })
  else
    (false, s)

/-- One call of the audio-ingestion interface: an `accept_waveform` chunk
with its declared sampling rate and DSP oracle, or `input_finished` with its
flush oracle. -/
inductive AudioOp : Type where
  | accept : ℚ → List Frame → AudioOp
  | finish : List Frame → AudioOp

/-- Run one ingestion call. -/
def runOp (s : Stream) : AudioOp → Except SherpaError Stream
  | .accept sampling_rate new_frames =>
      s.accept_waveform sampling_rate new_frames
  | .finish flushed => .ok (s.input_finished flushed)

/-- Run a sequence of ingestion calls, stopping at the first error. -/
def runOps (s : Stream) : List AudioOp → Except SherpaError Stream
  | [] => .ok s
  | op :: ops => (runOp s op).bind (fun s' => runOps s' ops)

/-- A concrete stream used to witness the endpoint and padding theorems:
the test stream of §8 of the spec (`processed_frames = 50`,
`num_trailing_blank_frames = 30`, `segment = 2`). -/
noncomputable def epTestStream : Stream :=
  { feature_extractor := create_streaming_feature_extractor
    features := []
    num_fetched_frames := 0
    num_trailing_blank_frames := 30
    states := []
    processed_frames := 50
    context_size := 2
    subsampling_factor := 4
    log_eps := log_eps_value
    segment := 2
    frame_offset := 17
    segment_frame_offset := 5 }

/-- The watermark invariant of the feature buffer: it equals the number of
buffered entries, never exceeds the frames ready, and entry `i` is the
extractor's frame `i`. -/
def FetchInv (s : Stream) : Prop :=
  s.num_fetched_frames = s.features.length ∧
  s.num_fetched_frames ≤ s.feature_extractor.num_frames_ready ∧
  ∀ i < s.num_fetched_frames,
    s.features.getD i [] = s.feature_extractor.get_frame i

/-- The stream after one 16 kHz chunk that yields one frame. -/
noncomputable def c4Stream1 : Stream :=
  match runOps (Stream.init 2 4 []) [AudioOp.accept 16000 [[[0]]]] with
  | .ok s => s
  | .error _ => Stream.init 2 4 []

/-- The stream after additionally finishing input with one flushed frame. -/
noncomputable def c4Stream2 : Stream :=
  match runOps c4Stream1 [AudioOp.finish [[[1]]]] with
  | .ok s => s
  | .error _ => c4Stream1

/-! ### Theorems about the endpoint detector, tail padding and ingestion -/

/-- C2: when `endpoint_detected` returns `True` the stream afterwards has
`num_trailing_blank_frames = 0`, `processed_frames = 0`,
`segment_frame_offset = 0`, `segment` incremented by exactly one, and
`frame_offset` untouched. -/
theorem endpoint_true_resets {Config : Type}
    (D : Config → Nat → Nat → ℚ → Bool) (s s' : Stream) (config : Config)
    (h : Stream.endpoint_detected D s config = (true, s')) :
    s'.num_trailing_blank_frames = 0 ∧ s'.processed_frames = 0 ∧
    s'.segment_frame_offset = 0 ∧ s'.segment = s.segment + 1 ∧
    s'.frame_offset = s.frame_offset := by
  unfold Stream.endpoint_detected at h
  split at h
  · injection h with h1 h2
    subst h2
    exact ⟨rfl, rfl, rfl, rfl, rfl⟩
  · injection h with h1 h2
    exact Bool.noConfusion h1

/-- Witness for C2 at a concrete stream and an always-true predicate. -/
theorem endpoint_true_resets_witness :
    ((Stream.endpoint_detected (fun (_ : Unit) _ _ _ => true) epTestStream
        ()).2).num_trailing_blank_frames = 0 ∧
    ((Stream.endpoint_detected (fun (_ : Unit) _ _ _ => true) epTestStream
        ()).2).processed_frames = 0 ∧
    ((Stream.endpoint_detected (fun (_ : Unit) _ _ _ => true) epTestStream
        ()).2).segment_frame_offset = 0 ∧
    ((Stream.endpoint_detected (fun (_ : Unit) _ _ _ => true) epTestStream
        ()).2).segment = epTestStream.segment + 1 ∧
    ((Stream.endpoint_detected (fun (_ : Unit) _ _ _ => true) epTestStream
        ()).2).frame_offset = epTestStream.frame_offset :=
  endpoint_true_resets (fun (_ : Unit) _ _ _ => true) epTestStream _ () rfl

/-- C3: when `endpoint_detected` returns `False` the stream is completely
unchanged: the returned stream equals the input stream in every field. -/
theorem endpoint_false_noop {Config : Type}
    (D : Config → Nat → Nat → ℚ → Bool) (s s' : Stream) (config : Config)
    (h : Stream.endpoint_detected D s config = (false, s')) :
    s' = s := by
  unfold Stream.endpoint_detected at h
  split at h
  · injection h with h1 h2
    exact Bool.noConfusion h1
  · injection h with h1 h2
    exact h2.symm

/-- Witness for C3 at a concrete stream and an always-false predicate. -/
theorem endpoint_false_noop_witness :
    (Stream.endpoint_detected (fun (_ : Unit) _ _ _ => false) epTestStream
      ()).2 = epTestStream :=
  endpoint_false_noop (fun (_ : Unit) _ _ _ => false) epTestStream _ () rfl

/-- C9: whatever `endpoint_detected` returns, it never writes `features`,
`num_fetched_frames`, `states`, `frame_offset`, `context_size`,
`subsampling_factor`, the extractor or `log_eps`; only the four reset
fields can change. -/
theorem endpoint_only_writes_reset_fields {Config : Type}
    (D : Config → Nat → Nat → ℚ → Bool) (s : Stream) (config : Config) :
    ((Stream.endpoint_detected D s config).2).features = s.features ∧
    ((Stream.endpoint_detected D s config).2).num_fetched_frames =
      s.num_fetched_frames ∧
    ((Stream.endpoint_detected D s config).2).states = s.states ∧
    ((Stream.endpoint_detected D s config).2).frame_offset = s.frame_offset ∧
    ((Stream.endpoint_detected D s config).2).context_size = s.context_size ∧
    ((Stream.endpoint_detected D s config).2).subsampling_factor =
      s.subsampling_factor ∧
    ((Stream.endpoint_detected D s config).2).feature_extractor =
      s.feature_extractor ∧
    ((Stream.endpoint_detected D s config).2).log_eps = s.log_eps := by
  unfold Stream.endpoint_detected
  split
  · exact ⟨rfl, rfl, rfl, rfl, rfl, rfl, rfl, rfl⟩
  · exact ⟨rfl, rfl, rfl, rfl, rfl, rfl, rfl, rfl⟩

/-- C6: the boolean decision of `Stream.endpoint_detected` is exactly the
injected predicate applied to the config, `processed_frames`,
`num_trailing_blank_frames * subsampling_factor`, and the extractor's
frame shift in milliseconds divided by 1000. -/
theorem endpoint_decision_eq {Config : Type}
    (D : Config → Nat → Nat → ℚ → Bool) (s : Stream) (config : Config) :
    (Stream.endpoint_detected D s config).1 =
      D config s.processed_frames
        (s.num_trailing_blank_frames * s.subsampling_factor)
        (s.feature_extractor.frame_shift_ms / 1000) := by
  unfold Stream.endpoint_detected
  split
  · next h => exact h.symm
  · next h => simpa using (Bool.not_eq_true _).mp h |>.symm

/-- C5: for `n ≥ 0`, `add_tail_paddings n` appends exactly `n` frames, each
of shape `(1, num_bins)` with every component equal to `log 1e-10`, and
leaves `num_fetched_frames` and the extractor untouched. -/
theorem add_tail_paddings_appends (s : Stream) (n : Nat)
    (h : s.log_eps = log_eps_value) :
    (s.add_tail_paddings (n : Int)).features =
      s.features ++
        List.replicate n
          [List.replicate s.feature_extractor.num_bins log_eps_value] ∧
    (s.add_tail_paddings (n : Int)).num_fetched_frames =
      s.num_fetched_frames ∧
    (s.add_tail_paddings (n : Int)).feature_extractor =
      s.feature_extractor := by
  unfold Stream.add_tail_paddings pyRepeat
  refine ⟨?_, rfl, rfl⟩
  simp [h]

/-- Witness for C5: three paddings on the concrete test stream. -/
theorem add_tail_paddings_appends_witness :
    (epTestStream.add_tail_paddings ((3 : Nat) : Int)).features =
      epTestStream.features ++
        List.replicate 3
          [List.replicate epTestStream.feature_extractor.num_bins
            log_eps_value] ∧
    (epTestStream.add_tail_paddings ((3 : Nat) : Int)).num_fetched_frames =
      epTestStream.num_fetched_frames ∧
    (epTestStream.add_tail_paddings ((3 : Nat) : Int)).feature_extractor =
      epTestStream.feature_extractor :=
  add_tail_paddings_appends epTestStream 3 rfl

/-- C10: for `n ≤ 0`, `add_tail_paddings n` is a no-op: Python list
replication with a non-positive count appends nothing, and no other field
is written. -/
theorem add_tail_paddings_nonpos (s : Stream) (n : Int) (h : n ≤ 0) :
    s.add_tail_paddings n = s := by
  unfold Stream.add_tail_paddings pyRepeat
  rw [Int.toNat_of_nonpos h]
  simp

/-- Witness for C10 at `n = -5`. -/
theorem add_tail_paddings_nonpos_witness :
    epTestStream.add_tail_paddings (-5) = epTestStream :=
  add_tail_paddings_nonpos epTestStream (-5) (by decide)

/-- C7: `accept_waveform` with a declared sampling rate different from the
extractor's configured one fails with `ConfigError`; no stream state is
produced, so the caller's `features` and `num_fetched_frames` are the old
ones (the extractor throws before any mutation). -/
theorem accept_waveform_rate_mismatch (s : Stream) (sampling_rate : ℚ)
    (new_frames : List Frame)
    (h : sampling_rate ≠ s.feature_extractor.samp_freq) :
    s.accept_waveform sampling_rate new_frames =
      .error SherpaError.configError := by
  unfold Stream.accept_waveform OnlineFeature.accept_waveform
  rw [if_neg h]
  rfl

/-- Witness for C7: declared rate 8000 against the configured 16000. -/
theorem accept_waveform_rate_mismatch_witness :
    epTestStream.accept_waveform 8000 [] =
      .error SherpaError.configError :=
  accept_waveform_rate_mismatch epTestStream 8000 [] (by decide)

/-! ### The feature-buffer watermark invariant (C4) -/

/-- `getD` of a map over `range'` picks out the mapped index. -/
theorem getD_map_range' (g : Nat → α) (a k j : Nat) (d : α) (h : j < k) :
    ((List.range' a k).map g).getD j d = g (a + j) := by
  have hlen : j < ((List.range' a k).map g).length := by
    simpa using h
  rw [List.getD_eq_getElem _ _ hlen]
  simp

/-- What the fetch loop does: `fetchGo s k` appends the `k` extractor frames
starting at the current watermark and advances the watermark by `k`; the
extractor itself is untouched. -/
theorem fetchGo_spec (s : Stream) (k : Nat) :
    (fetchGo s k).features =
      s.features ++
        (List.range' s.num_fetched_frames k).map
          s.feature_extractor.get_frame ∧
    (fetchGo s k).num_fetched_frames = s.num_fetched_frames + k ∧
    (fetchGo s k).feature_extractor = s.feature_extractor := by
  induction k generalizing s with
  | zero => exact ⟨by simp [fetchGo], rfl, rfl⟩
  | succ k ih =>
    obtain ⟨h1, h2, h3⟩ := ih
      { s with
        features :=
          s.features ++ [s.feature_extractor.get_frame s.num_fetched_frames]
        num_fetched_frames := s.num_fetched_frames + 1 }
    refine ⟨?_, ?_, ?_⟩
    · rw [show fetchGo s (k + 1) =
          fetchGo
            { s with
              features := s.features ++
                [s.feature_extractor.get_frame s.num_fetched_frames]
              num_fetched_frames := s.num_fetched_frames + 1 } k from rfl,
        h1]
      simp [List.range'_succ]
    · rw [show fetchGo s (k + 1) =
          fetchGo
            { s with
              features := s.features ++
                [s.feature_extractor.get_frame s.num_fetched_frames]
              num_fetched_frames := s.num_fetched_frames + 1 } k from rfl,
        h2]
      show s.num_fetched_frames + 1 + k = s.num_fetched_frames + (k + 1)
      omega
    · exact h3

/-- What `_fetch_frames` does when the watermark is within the ready count:
append exactly the ready frames from the watermark on, and move the
watermark to the ready count. -/
theorem fetch_frames_spec (s : Stream)
    (hle : s.num_fetched_frames ≤ s.feature_extractor.num_frames_ready) :
    (Stream.fetch_frames s).features =
      s.features ++
        (List.range' s.num_fetched_frames
          (s.feature_extractor.num_frames_ready - s.num_fetched_frames)).map
          s.feature_extractor.get_frame ∧
    (Stream.fetch_frames s).num_fetched_frames =
      s.feature_extractor.num_frames_ready ∧
    (Stream.fetch_frames s).feature_extractor = s.feature_extractor := by
  unfold Stream.fetch_frames
  obtain ⟨h1, h2, h3⟩ := fetchGo_spec s
    (s.feature_extractor.num_frames_ready - s.num_fetched_frames)
  exact ⟨h1, by rw [h2]; omega, h3⟩

/-- Extending the extractor's ready frames and running the fetch loop
preserves the watermark invariant, and the watermark does not decrease.
`t` is `s` with the extractor's ready list extended by `new`. -/
theorem fetch_extend_inv (s t : Stream) (new : List Frame) (h : FetchInv s)
    (ht1 : t.features = s.features)
    (ht2 : t.num_fetched_frames = s.num_fetched_frames)
    (ht3 : t.feature_extractor.ready = s.feature_extractor.ready ++ new) :
    FetchInv (Stream.fetch_frames t) ∧
    s.num_fetched_frames ≤ (Stream.fetch_frames t).num_fetched_frames := by
  obtain ⟨hlen, hle, hframes⟩ := h
  have hready : t.feature_extractor.num_frames_ready =
      s.feature_extractor.num_frames_ready + new.length := by
    unfold OnlineFeature.num_frames_ready
    rw [ht3, List.length_append]
  have hleT : t.num_fetched_frames ≤ t.feature_extractor.num_frames_ready := by
    rw [ht2, hready]
    exact le_trans hle (Nat.le_add_right _ _)
  obtain ⟨h1, h2, h3⟩ := fetch_frames_spec t hleT
  refine ⟨⟨?_, ?_, ?_⟩, ?_⟩
  · rw [h2, h1, List.length_append, List.length_map, List.length_range',
      ht1, ht2, ← hlen]
    omega
  · rw [h2, h3]
  · intro i hi
    rw [h2] at hi
    rw [h1, h3, ht1, ht2]
    by_cases hcase : i < s.num_fetched_frames
    · rw [List.getD_append _ _ _ _ (by omega)]
      rw [hframes i hcase]
      unfold OnlineFeature.get_frame
      rw [ht3]
      have hiR : i < s.feature_extractor.ready.length := by
        have : s.feature_extractor.num_frames_ready =
            s.feature_extractor.ready.length := rfl
        omega
      exact (List.getD_append _ _ _ _ hiR).symm
    · rw [List.getD_append_right _ _ _ _ (by omega)]
      rw [getD_map_range' _ _ _ _ _ (by omega)]
      congr 1
      omega
  · rw [h2, hready]
    omega

/-- A single ingestion call preserves the watermark invariant and never
decreases the watermark. -/
theorem runOp_inv (s s' : Stream) (op : AudioOp) (h : FetchInv s)
    (hr : runOp s op = .ok s') :
    FetchInv s' ∧ s.num_fetched_frames ≤ s'.num_fetched_frames := by
  cases op with
  | accept sampling_rate new_frames =>
    have hr' : s.accept_waveform sampling_rate new_frames = .ok s' := hr
    unfold Stream.accept_waveform OnlineFeature.accept_waveform at hr'
    split at hr'
    · simp only [Except.map] at hr'
      injection hr' with hr'
      rw [← hr']
      exact fetch_extend_inv s _ new_frames h rfl rfl rfl
    · simp only [Except.map] at hr'
      cases hr'
  | finish flushed =>
    have hr' : Except.ok (s.input_finished flushed) =
        (Except.ok s' : Except SherpaError Stream) := hr
    injection hr' with hr'
    rw [← hr']
    exact fetch_extend_inv s _ flushed h rfl rfl rfl

/-- Any successful ingestion sequence preserves the watermark invariant and
never decreases the watermark. -/
theorem runOps_inv (ops : List AudioOp) (s s' : Stream) (h : FetchInv s)
    (hr : runOps s ops = .ok s') :
    FetchInv s' ∧ s.num_fetched_frames ≤ s'.num_fetched_frames := by
  induction ops generalizing s with
  | nil =>
    unfold runOps at hr
    injection hr with hr
    rw [← hr]
    exact ⟨h, le_refl _⟩
  | cons op ops ih =>
    unfold runOps at hr
    cases hop : runOp s op with
    | error e => rw [hop] at hr; cases hr
    | ok s1 =>
      rw [hop] at hr
      simp only [Except.bind] at hr
      obtain ⟨h1, hle1⟩ := runOp_inv s s1 op h hop
      obtain ⟨h2, hle2⟩ := ih s1 h1 hr
      exact ⟨h2, le_trans hle1 hle2⟩

/-- A freshly constructed stream satisfies the watermark invariant. -/
theorem init_fetch_inv (context_size subsampling_factor : Nat)
    (initial_states : List (List Tensor3)) :
    FetchInv (Stream.init context_size subsampling_factor initial_states) :=
  ⟨rfl, Nat.le_refl _, fun i hi => absurd hi (Nat.not_lt_zero i)⟩

/-- C4: along any ingestion sequence from a fresh stream,
`num_fetched_frames` is non-decreasing, after each call it equals the
number of buffered feature entries, and the buffer preserves extraction
order exactly: entry `i` is the extractor's frame `i`. -/
theorem ingestion_watermark_invariant (context_size subsampling_factor : Nat)
    (initial_states : List (List Tensor3)) (ops1 ops2 : List AudioOp)
    (s1 s2 : Stream)
    (h1 : runOps (Stream.init context_size subsampling_factor initial_states)
        ops1 = .ok s1)
    (h2 : runOps s1 ops2 = .ok s2) :
    s1.num_fetched_frames ≤ s2.num_fetched_frames ∧
    s1.num_fetched_frames = s1.features.length ∧
    s2.num_fetched_frames = s2.features.length ∧
    ∀ i < s2.num_fetched_frames,
      s2.features.getD i [] = s2.feature_extractor.get_frame i := by
  obtain ⟨hi1, _⟩ := runOps_inv ops1 _ s1
    (init_fetch_inv context_size subsampling_factor initial_states) h1
  obtain ⟨hi2, hle⟩ := runOps_inv ops2 s1 s2 hi1 h2
  exact ⟨hle, hi1.1, hi2.1, hi2.2.2⟩

/-- Witness for C4 on a concrete two-call ingestion sequence. -/
theorem ingestion_watermark_invariant_witness :
    c4Stream1.num_fetched_frames ≤ c4Stream2.num_fetched_frames ∧
    c4Stream1.num_fetched_frames = c4Stream1.features.length ∧
    c4Stream2.num_fetched_frames = c4Stream2.features.length :=
  have h := ingestion_watermark_invariant 2 4 []
    [AudioOp.accept 16000 [[[0]]]] [AudioOp.finish [[[1]]]]
    c4Stream1 c4Stream2 rfl rfl
  ⟨h.1, h.2.1, h.2.2.1⟩

/-! ### The batch codec round trip (C1) and shape errors (C8) -/

theorem dim1_eq (t : Tensor3) (d0 d1 d2 : Nat) (ht : IsTensor3 d0 d1 d2 t)
    (h0 : 1 ≤ d0) : dim1 t = d1 := by
  obtain ⟨hlen, hrect⟩ := ht
  cases t with
  | nil => simp at hlen; omega
  | cons m tr => exact (hrect m (List.mem_cons_self m tr)).1

theorem dim2_eq (t : Tensor3) (d0 d1 d2 : Nat) (ht : IsTensor3 d0 d1 d2 t)
    (h0 : 1 ≤ d0) (h1 : 1 ≤ d1) : dim2 t = d2 := by
  obtain ⟨hlen, hrect⟩ := ht
  cases t with
  | nil => simp at hlen; omega
  | cons m tr =>
    obtain ⟨hm, hrows⟩ := hrect m (List.mem_cons_self m tr)
    cases m with
    | nil => simp at hm; omega
    | cons r mr => exact hrows r (List.mem_cons_self r mr)

theorem getD_row_length (m : Tensor2) (d2 : Nat)
    (hrows : ∀ r ∈ m, r.length = d2) (i : Nat) (hi : i < m.length) :
    (m.getD i []).length = d2 := by
  rw [List.getD_eq_getElem m [] hi]
  exact hrows _ (List.getElem_mem hi)

/-- `torch.cat` over a list with at least two entries folds pairwise. -/
theorem cat1List_cons (x : Tensor3) (xs : List Tensor3) (h : xs ≠ []) :
    cat1List (x :: xs) = (cat1List xs).bind (fun r => cat1 x r) := by
  cases xs with
  | nil => exact absurd rfl h
  | cons y ys => rfl

/-- Concatenating the unsqueezed dim-1 slices `i, …, i+k-1` of a tensor
rebuilds the corresponding column block. -/
theorem cat1List_unbind_slice (t : Tensor3) (d0 n d2 : Nat)
    (ht : IsTensor3 d0 n d2 t) (h0 : 1 ≤ d0) :
    ∀ k i, 1 ≤ k → i + k ≤ n →
    cat1List ((List.range' i k).map (fun j => unsqueeze1 (unbindAt t j))) =
      some (t.map (fun m => (m.drop i).take k)) := by
  intro k
  induction k with
  | zero => intro i h1 _; exact absurd h1 (by omega)
  | succ k ih =>
    intro i hk hik
    cases k with
    | zero =>
      rw [show List.range' i 1 = [i] from rfl, List.map_cons, List.map_nil]
      show some (unsqueeze1 (unbindAt t i)) = _
      congr 1
      unfold unsqueeze1 unbindAt
      rw [List.map_map]
      apply List.map_congr_left
      intro m hm
      obtain ⟨hmlen, _⟩ := ht.2 m hm
      have hilt : i < m.length := by omega
      rw [Function.comp_apply, List.drop_eq_getElem_cons hilt,
        List.take_succ_cons, List.take_zero, List.getD_eq_getElem m [] hilt]
    | succ k' =>
      rw [List.range'_succ, List.map_cons]
      rw [cat1List_cons _ _ (by simp [List.range'_succ])]
      rw [ih (i + 1) (by omega) (by omega)]
      show cat1 (unsqueeze1 (unbindAt t i))
        (t.map (fun m => (m.drop (i + 1)).take (k' + 1))) = _
      obtain ⟨m₀, tr, rfl⟩ : ∃ m₀ tr, t = m₀ :: tr := by
        cases t with
        | nil => exact absurd ht.1 (by simp; omega)
        | cons m₀ tr => exact ⟨m₀, tr, rfl⟩
      obtain ⟨hm₀len, hm₀rows⟩ := ht.2 m₀ (List.mem_cons_self m₀ tr)
      have hi₀ : i < m₀.length := by omega
      have hi₁ : i + 1 < m₀.length := by omega
      unfold cat1
      rw [if_pos ?_]
      · congr 1
        unfold unsqueeze1 unbindAt
        rw [List.map_map, List.zipWith_map, List.zipWith_same]
        apply List.map_congr_left
        intro m hm
        obtain ⟨hmlen, _⟩ := ht.2 m hm
        have him : i < m.length := by omega
        rw [Function.comp_apply, List.getD_eq_getElem m [] him,
          List.drop_eq_getElem_cons him, List.take_succ_cons,
          List.singleton_append]
      · constructor
        · unfold unsqueeze1 unbindAt
          simp
        · unfold dim2 unsqueeze1 unbindAt
          rw [List.map_map, List.map_cons, List.map_cons]
          simp only [List.headD_cons, Function.comp_apply]
          rw [List.drop_eq_getElem_cons hi₁, List.take_succ_cons,
            List.headD_cons, List.getD_eq_getElem m₀ [] hi₀]
          rw [hm₀rows _ (List.getElem_mem hi₀), hm₀rows _ (List.getElem_mem hi₁)]

/-- Concatenating all unsqueezed dim-1 slices of a tensor rebuilds it. -/
theorem cat1List_unbind (t : Tensor3) (d0 n d2 : Nat)
    (ht : IsTensor3 d0 n d2 t) (h0 : 1 ≤ d0) (hn : 1 ≤ n) :
    cat1List ((List.range n).map (fun i => unsqueeze1 (unbindAt t i))) =
      some t := by
  rw [List.range_eq_range',
    cat1List_unbind_slice t d0 n d2 ht h0 n 0 hn (by omega)]
  congr 1
  have hmap : t.map (fun m => (m.drop 0).take n) = t.map id :=
    List.map_congr_left (fun m hm => by
      obtain ⟨hmlen, _⟩ := ht.2 m hm
      rw [List.drop_zero, id_eq, ← hmlen, List.take_length])
  rw [hmap, List.map_id]

/-- Direction 1 of the round trip: `stack_states (unstack_states S) = S`
for a valid batched state. -/
theorem stack_of_unstack (hidden cell : Tensor3) (d0h d0c n d2h d2c : Nat)
    (h0h : 1 ≤ d0h) (h0c : 1 ≤ d0c) (hn : 1 ≤ n)
    (hh : IsTensor3 d0h n d2h hidden) (hc : IsTensor3 d0c n d2c cell) :
    stack_states (unstack_states (hidden, cell)) = some (hidden, cell) := by
  have hlist : unstack_states (hidden, cell) =
      (List.range n).map
        (fun i => (unsqueeze1 (unbindAt hidden i),
                   unsqueeze1 (unbindAt cell i))) := by
    unfold unstack_states unbind1
    rw [show (hidden, cell).1 = hidden from rfl,
      show (hidden, cell).2 = cell from rfl,
      dim1_eq hidden d0h n d2h hh h0h, dim1_eq cell d0c n d2c hc h0c,
      List.zip_map', List.map_map]
    rfl
  rw [hlist]
  unfold stack_states
  rw [List.map_map, List.map_map]
  rw [show ((Prod.fst ∘ fun i =>
      (unsqueeze1 (unbindAt hidden i), unsqueeze1 (unbindAt cell i))) :
        Nat → Tensor3) = fun i => unsqueeze1 (unbindAt hidden i) from rfl]
  rw [show ((Prod.snd ∘ fun i =>
      (unsqueeze1 (unbindAt hidden i), unsqueeze1 (unbindAt cell i))) :
        Nat → Tensor3) = fun i => unsqueeze1 (unbindAt cell i) from rfl]
  rw [cat1List_unbind hidden d0h n d2h hh h0h hn,
    cat1List_unbind cell d0c n d2c hc h0c hn]

/-- Unbinding the single dim-1 slice of a batch-1 tensor and unsqueezing it
gives the tensor back. -/
theorem unsqueeze_unbind_zero (t : Tensor3) (d0 d2 : Nat)
    (ht : IsTensor3 d0 1 d2 t) : unsqueeze1 (unbindAt t 0) = t := by
  unfold unsqueeze1 unbindAt
  rw [List.map_map]
  have hmap : t.map ((fun r => [r]) ∘ (fun m => m.getD 0 [])) = t.map id :=
    List.map_congr_left (fun m hm => by
      obtain ⟨hmlen, _⟩ := ht.2 m hm
      cases m with
      | nil => simp at hmlen
      | cons r mr =>
        obtain rfl : mr = [] := by
          simpa using List.length_eq_zero.mp (by simpa using hmlen)
        rfl)
  rw [hmap, List.map_id]

/-- Pointwise concatenation of rectangular slice stacks is rectangular with
the dim-1 sizes added. -/
theorem rect_zipWith_append (x : Tensor3) (a b d2 : Nat) :
    ∀ y : Tensor3, Rect a d2 x → Rect b d2 y →
    Rect (a + b) d2 (List.zipWith (fun u v => u ++ v) x y) := by
  induction x with
  | nil => intro y _ _ m hm; simp at hm
  | cons mx xs ihx =>
    intro y hx hy
    cases y with
    | nil => intro m hm; simp at hm
    | cons my ys =>
      intro m hm
      rw [List.zipWith_cons_cons] at hm
      rcases List.mem_cons.mp hm with h | h
      · subst h
        obtain ⟨hxlen, hxrows⟩ := hx mx (List.mem_cons_self mx xs)
        obtain ⟨hylen, hyrows⟩ := hy my (List.mem_cons_self my ys)
        refine ⟨by rw [List.length_append, hxlen, hylen], ?_⟩
        intro r hr
        rcases List.mem_append.mp hr with h | h
        · exact hxrows r h
        · exact hyrows r h
      · exact ihx ys (fun m hm => hx m (List.mem_cons_of_mem mx hm))
          (fun m hm => hy m (List.mem_cons_of_mem my hm)) m h

/-- Reading column 0 of a pointwise concatenation reads column 0 of the
left operand, provided each left slice is nonempty. -/
theorem unbindAt_zipWith_zero (x : Tensor3) :
    ∀ y : Tensor3, x.length = y.length → (∀ m ∈ x, m ≠ []) →
    unbindAt (List.zipWith (fun u v => u ++ v) x y) 0 = unbindAt x 0 := by
  unfold unbindAt
  induction x with
  | nil => intro y _ _; simp
  | cons mx xs ihx =>
    intro y hlen hne
    cases y with
    | nil => simp at hlen
    | cons my ys =>
      rw [List.zipWith_cons_cons, List.map_cons, List.map_cons]
      congr 1
      · have hmx : 0 < mx.length :=
          List.length_pos.mpr (hne mx (List.mem_cons_self mx xs))
        exact List.getD_append _ _ _ _ hmx
      · exact ihx ys (by simpa using hlen)
          (fun m hm => hne m (List.mem_cons_of_mem mx hm))

/-- Reading column `i + 1` of a pointwise concatenation whose left slices
all have exactly one column reads column `i` of the right operand. -/
theorem unbindAt_zipWith_succ (x : Tensor3) (i : Nat) :
    ∀ y : Tensor3, x.length = y.length → (∀ m ∈ x, m.length = 1) →
    unbindAt (List.zipWith (fun u v => u ++ v) x y) (i + 1) =
      unbindAt y i := by
  unfold unbindAt
  induction x with
  | nil =>
    intro y hlen _
    cases y with
    | nil => simp
    | cons my ys => simp at hlen
  | cons mx xs ihx =>
    intro y hlen hone
    cases y with
    | nil => simp at hlen
    | cons my ys =>
      rw [List.zipWith_cons_cons, List.map_cons, List.map_cons]
      congr 1
      · have hmx : mx.length = 1 := hone mx (List.mem_cons_self mx xs)
        rw [List.getD_append_right _ _ _ _ (by omega), hmx,
          Nat.add_sub_cancel]
      · exact ihx ys (by simpa using hlen)
          (fun m hm => hone m (List.mem_cons_of_mem mx hm))

/-- Concatenating a nonempty list of batch-1 states of identical non-batch
shape succeeds, yields a tensor whose batch size is the list length, and
unbinding recovers exactly the inputs in order. -/
theorem cat1List_singleton_states (ts : List Tensor3) (d0 d2 : Nat)
    (hne : ts ≠ []) (hall : ∀ t ∈ ts, IsTensor3 d0 1 d2 t) (h0 : 1 ≤ d0) :
    ∃ T, cat1List ts = some T ∧ IsTensor3 d0 ts.length d2 T ∧
      (List.range ts.length).map (fun i => unsqueeze1 (unbindAt T i)) = ts := by
  induction ts with
  | nil => exact absurd rfl hne
  | cons t ts ih =>
    have htt := hall t (List.mem_cons_self t ts)
    cases ts with
    | nil =>
      refine ⟨t, rfl, by simpa using htt, ?_⟩
      have hr : List.range ([t] : List Tensor3).length = [0] := by
        rw [List.length_singleton]
        decide
      rw [hr, List.map_cons, List.map_nil, unsqueeze_unbind_zero t d0 d2 htt]
    | cons t2 ts2 =>
      obtain ⟨T', hT'eq, hT'tensor, hT'unbind⟩ :=
        ih (by simp) (fun u hu => hall u (List.mem_cons_of_mem t hu))
      have hT'len : T'.length = d0 := hT'tensor.1
      have htlen : t.length = d0 := htt.1
      have hdim2t : dim2 t = d2 := dim2_eq t d0 1 d2 htt h0 (by omega)
      have hdim2T' : dim2 T' = d2 :=
        dim2_eq T' d0 (t2 :: ts2).length d2 hT'tensor h0 (by simp)
      refine ⟨List.zipWith (fun u v => u ++ v) t T', ?_, ?_, ?_⟩
      · rw [cat1List_cons _ _ (by simp), hT'eq]
        show cat1 t T' = _
        unfold cat1
        rw [if_pos ⟨by omega, by rw [hdim2t, hdim2T']⟩]
      · constructor
        · rw [List.length_zipWith]
          omega
        · have h2 := rect_zipWith_append t 1 (t2 :: ts2).length d2 T'
            htt.2 hT'tensor.2
          rw [Nat.add_comm] at h2
          simpa using h2
      · rw [show (t :: t2 :: ts2).length = (t2 :: ts2).length + 1 from rfl]
        rw [List.range_succ_eq_map, List.map_cons, List.map_map]
        congr 1
        · show unsqueeze1
            (unbindAt (List.zipWith (fun u v => u ++ v) t T') 0) = t
          rw [unbindAt_zipWith_zero t T' (by omega) (fun m hm => by
            have hm1 := (htt.2 m hm).1
            intro hnil
            rw [hnil] at hm1
            simp at hm1)]
          exact unsqueeze_unbind_zero t d0 d2 htt
        · have hmapeq :
            ((fun i => unsqueeze1
                (unbindAt (List.zipWith (fun u v => u ++ v) t T') i)) ∘
              Nat.succ) = fun i => unsqueeze1 (unbindAt T' i) := by
            funext i
            rw [Function.comp_apply, show Nat.succ i = i + 1 from rfl,
              unbindAt_zipWith_succ t i T' (by omega)
                (fun m hm => (htt.2 m hm).1)]
          rw [hmapeq, hT'unbind]

theorem zip_map_fst_snd_eq (l : List (α × β)) :
    (l.map Prod.fst).zip (l.map Prod.snd) = l := by
  have h := List.zip_unzip l
  rwa [List.unzip_eq_map] at h

/-- Direction 2 of the round trip: `unstack_states (stack_states L) = L`
for a nonempty list of batch-1 states of matching non-batch shapes. -/
theorem unstack_of_stack (L : List (Tensor3 × Tensor3))
    (d0h d0c d2h d2c : Nat) (hne : L ≠ []) (h0h : 1 ≤ d0h) (h0c : 1 ≤ d0c)
    (hall : ∀ p ∈ L, IsTensor3 d0h 1 d2h p.1 ∧ IsTensor3 d0c 1 d2c p.2) :
    Option.map unstack_states (stack_states L) = some L := by
  obtain ⟨H, hHeq, hHtensor, hHunbind⟩ :=
    cat1List_singleton_states (L.map Prod.fst) d0h d2h (by simpa using hne)
      (fun t ht => by
        obtain ⟨p, hp, rfl⟩ := List.mem_map.mp ht
        exact (hall p hp).1) h0h
  obtain ⟨C, hCeq, hCtensor, hCunbind⟩ :=
    cat1List_singleton_states (L.map Prod.snd) d0c d2c (by simpa using hne)
      (fun t ht => by
        obtain ⟨p, hp, rfl⟩ := List.mem_map.mp ht
        exact (hall p hp).2) h0c
  rw [List.length_map] at hHtensor hHunbind hCtensor hCunbind
  unfold stack_states
  rw [hHeq, hCeq]
  show some (unstack_states (H, C)) = some L
  congr 1
  unfold unstack_states unbind1
  rw [show (H, C).1 = H from rfl, show (H, C).2 = C from rfl,
    dim1_eq H d0h L.length d2h hHtensor h0h,
    dim1_eq C d0c L.length d2c hCtensor h0c,
    List.zip_map', List.map_map]
  rw [show ((fun p : Tensor2 × Tensor2 => (unsqueeze1 p.1, unsqueeze1 p.2)) ∘
      fun i => (unbindAt H i, unbindAt C i)) =
      fun i => (unsqueeze1 (unbindAt H i), unsqueeze1 (unbindAt C i))
      from rfl]
  rw [← List.zip_map' (fun i => unsqueeze1 (unbindAt H i))
      (fun i => unsqueeze1 (unbindAt C i)) (List.range L.length)]
  rw [hHunbind, hCunbind, zip_map_fst_snd_eq]

/-- C1: the batch codec round trips.  For a valid batched state (`hidden`
and `cell` rectangular with a common batch size `n ≥ 1` at dimension 1 and
at least one dim-0 layer each), `stack_states (unstack_states S) = S`; and
for a nonempty list of batch-1 states of matching non-batch shapes,
`unstack_states (stack_states L) = L` elementwise, entry `i` corresponding
to batch position `i`. -/
theorem stack_unstack_roundtrip :
    (∀ (hidden cell : Tensor3) (d0h d0c n d2h d2c : Nat),
      1 ≤ d0h → 1 ≤ d0c → 1 ≤ n →
      IsTensor3 d0h n d2h hidden → IsTensor3 d0c n d2c cell →
      stack_states (unstack_states (hidden, cell)) = some (hidden, cell)) ∧
    (∀ (L : List (Tensor3 × Tensor3)) (d0h d0c d2h d2c : Nat),
      L ≠ [] → 1 ≤ d0h → 1 ≤ d0c →
      (∀ p ∈ L, IsTensor3 d0h 1 d2h p.1 ∧ IsTensor3 d0c 1 d2c p.2) →
      Option.map unstack_states (stack_states L) = some L) :=
  ⟨fun hidden cell d0h d0c n d2h d2c h0h h0c hn hh hc =>
      stack_of_unstack hidden cell d0h d0c n d2h d2c h0h h0c hn hh hc,
   fun L d0h d0c d2h d2c hne h0h h0c hall =>
      unstack_of_stack L d0h d0c d2h d2c hne h0h h0c hall⟩

/-- Witness for C1: a batched state with two layers and batch size 2, and a
list of two batch-1 states. -/
theorem stack_unstack_roundtrip_witness :
    stack_states (unstack_states ([[[1], [2]], [[3], [4]]],
        [[[5], [6]]])) =
      some ([[[1], [2]], [[3], [4]]], [[[5], [6]]]) ∧
    Option.map unstack_states
        (stack_states [([[[1]]], [[[2]]]), ([[[3]]], [[[4]]])]) =
      some [([[[1]]], [[[2]]]), ([[[3]]], [[[4]]])] :=
  ⟨stack_unstack_roundtrip.1 [[[1], [2]], [[3], [4]]] [[[5], [6]]]
      2 1 2 1 1 (by decide) (by decide) (by decide) (by decide) (by decide),
   stack_unstack_roundtrip.2 [([[[1]]], [[[2]]]), ([[[3]]], [[[4]]])]
      1 1 1 1 (by decide) (by decide) (by decide) (by decide)⟩

theorem dim2_zipWith_append (x y : Tensor3) (hx : x ≠ [])
    (hx0 : x.headD [] ≠ []) (hy : y ≠ []) :
    dim2 (List.zipWith (fun u v => u ++ v) x y) = dim2 x := by
  cases x with
  | nil => exact absurd rfl hx
  | cons mx xs =>
    cases y with
    | nil => exact absurd rfl hy
    | cons my ys =>
      rw [List.zipWith_cons_cons]
      unfold dim2
      simp only [List.headD_cons]
      cases mx with
      | nil => simp at hx0
      | cons r mr => rw [List.cons_append, List.headD_cons, List.headD_cons]

/-- If `torch.cat` over a list of well-formed tensors succeeds, every input
shares the result's dim-0 size and dim-2 size. -/
theorem cat1List_some_shapes (ts : List Tensor3) :
    ∀ T : Tensor3, (∀ t ∈ ts, t ≠ [] ∧ t.headD [] ≠ []) →
    cat1List ts = some T →
    ∀ t ∈ ts, t.length = T.length ∧ dim2 t = dim2 T := by
  induction ts with
  | nil =>
    intro T _ heq
    simp [cat1List] at heq
  | cons t ts ih =>
    intro T hforms heq
    cases ts with
    | nil =>
      have ht : t = T := by
        have h' : (some t : Option Tensor3) = some T := heq
        injection h'
      subst ht
      intro u hu
      rcases List.mem_singleton.mp hu with rfl
      exact ⟨rfl, rfl⟩
    | cons t2 ts2 =>
      rw [cat1List_cons _ _ (by simp)] at heq
      cases hrec : cat1List (t2 :: ts2) with
      | none =>
        rw [hrec] at heq
        exact absurd heq (by simp)
      | some T' =>
        rw [hrec] at heq
        have heq' : cat1 t T' = some T := heq
        unfold cat1 at heq'
        split at heq'
        · next hcond =>
          obtain ⟨hlen_eq, hdim_eq⟩ := hcond
          injection heq' with hT
          have htne := hforms t (List.mem_cons_self t (t2 :: ts2))
          have hshapes := ih T'
            (fun u hu => hforms u (List.mem_cons_of_mem t hu)) hrec
          have hT'ne : T' ≠ [] := by
            intro h
            rw [h] at hlen_eq
            simp at hlen_eq
            exact htne.1 hlen_eq
          have hTlen : T.length = t.length := by
            rw [← hT, List.length_zipWith]
            omega
          have hTdim2 : dim2 T = dim2 t := by
            rw [← hT]
            exact dim2_zipWith_append t T' htne.1 htne.2 hT'ne
          intro u hu
          rcases List.mem_cons.mp hu with rfl | hu'
          · exact ⟨hTlen.symm, hTdim2.symm⟩
          · obtain ⟨h1, h2⟩ := hshapes u hu'
            constructor
            · rw [h1, hTlen]
              exact hlen_eq.symm
            · rw [h2, hTdim2]
              exact hdim_eq.symm
        · exact absurd heq' (by simp)

/-- C8 (amended): `stack_states` fails (torch's shape error, embedded as
`none`) whenever two entries disagree in a non-batch dimension of the
hidden or of the cell tensors; `unstack_states` applied to hidden/cell
tensors with different batch sizes does not fail: Python `zip` truncates,
so it returns the states of the first `min` batch positions. -/
theorem stack_mismatch_shape_error :
    (∀ L : List (Tensor3 × Tensor3),
      (∀ p ∈ L, p.1 ≠ [] ∧ p.1.headD [] ≠ [] ∧
                p.2 ≠ [] ∧ p.2.headD [] ≠ []) →
      ∀ p ∈ L, ∀ q ∈ L,
      (p.1.length ≠ q.1.length ∨ dim2 p.1 ≠ dim2 q.1 ∨
       p.2.length ≠ q.2.length ∨ dim2 p.2 ≠ dim2 q.2) →
      stack_states L = none) ∧
    (∀ states : Tensor3 × Tensor3,
      (unstack_states states).length =
        min (dim1 states.1) (dim1 states.2)) := by
  constructor
  · intro L hforms p hp q hq hmis
    cases hσ : stack_states L with
    | none => rfl
    | some B =>
      exfalso
      have hboth : ∃ H C, cat1List (L.map Prod.fst) = some H ∧
          cat1List (L.map Prod.snd) = some C := by
        unfold stack_states at hσ
        cases h1 : cat1List (L.map Prod.fst) with
        | none =>
          cases h2 : cat1List (L.map Prod.snd) with
          | none => rw [h1, h2] at hσ; exact Option.noConfusion hσ
          | some C => rw [h1, h2] at hσ; exact Option.noConfusion hσ
        | some H =>
          cases h2 : cat1List (L.map Prod.snd) with
          | none => rw [h1, h2] at hσ; exact Option.noConfusion hσ
          | some C => exact ⟨H, C, rfl, rfl⟩
      obtain ⟨H, C, hH, hC⟩ := hboth
      have hshapesH := cat1List_some_shapes (L.map Prod.fst) H
        (fun u hu => by
          obtain ⟨p', hp', rfl⟩ := List.mem_map.mp hu
          exact ⟨(hforms p' hp').1, (hforms p' hp').2.1⟩) hH
      have hshapesC := cat1List_some_shapes (L.map Prod.snd) C
        (fun u hu => by
          obtain ⟨p', hp', rfl⟩ := List.mem_map.mp hu
          exact ⟨(hforms p' hp').2.2.1, (hforms p' hp').2.2.2⟩) hC
      rcases hmis with hm | hm | hm | hm
      · exact hm (by
          rw [(hshapesH p.1 (List.mem_map_of_mem Prod.fst hp)).1,
            (hshapesH q.1 (List.mem_map_of_mem Prod.fst hq)).1])
      · exact hm (by
          rw [(hshapesH p.1 (List.mem_map_of_mem Prod.fst hp)).2,
            (hshapesH q.1 (List.mem_map_of_mem Prod.fst hq)).2])
      · exact hm (by
          rw [(hshapesC p.2 (List.mem_map_of_mem Prod.snd hp)).1,
            (hshapesC q.2 (List.mem_map_of_mem Prod.snd hq)).1])
      · exact hm (by
          rw [(hshapesC p.2 (List.mem_map_of_mem Prod.snd hp)).2,
            (hshapesC q.2 (List.mem_map_of_mem Prod.snd hq)).2])
  · intro states
    unfold unstack_states unbind1
    rw [List.length_map, List.length_zip, List.length_map, List.length_map,
      List.length_range, List.length_range]

/-- Counterexample to C8 as stated: with a hidden tensor of batch size 2
and a cell tensor of batch size 1 — inconsistent shapes — `unstack_states`
does not fail: it returns a (truncated, length-1) list of states. -/
theorem unstack_mismatch_returns_value :
    unstack_states ([[[1], [2]]], [[[3]]]) = [([[[1]]], [[[3]]])] := by
  decide

/-- Witness for the amended C8: a feature-width mismatch makes
`stack_states` fail, and the truncated `unstack_states` length is the `min`
of the two batch sizes. -/
theorem stack_mismatch_shape_error_witness :
    stack_states [([[[1]]], [[[2]]]), ([[[1, 1]]], [[[2]]])] = none ∧
    (unstack_states ([[[1], [2]]], [[[3]]])).length =
      min (dim1 ([[[1], [2]]] : Tensor3)) (dim1 ([[[3]]] : Tensor3)) :=
  ⟨stack_mismatch_shape_error.1 [([[[1]]], [[[2]]]), ([[[1, 1]]], [[[2]]])]
      (by decide) ([[[1]]], [[[2]]]) (by decide) ([[[1, 1]]], [[[2]]])
      (by decide) (by decide),
   stack_mismatch_shape_error.2 ([[[1], [2]]], [[[3]]])⟩

end Sherpa
